import Mathlib

/-!
# Dual-protocol task service (`main.go`)

A shallow embedding of the task store (`server.CreateTask`, `server.ListTasks`,
`server.DeleteTask`), of the HTTP `DELETE /tasks/:id` handler and of the
protocol dispatcher, followed by the properties proved about them.

Modelling conventions.

* `int32` values are integers kept in `[-2^31, 2^31)`; arithmetic that can
  overflow is wrapped explicitly with `wrap32`.
* A Go slice is a header (backing array, offset, length, capacity) pointing
  into a heap of backing arrays, so that two slice headers can alias the same
  array, exactly as `s.tasks` and a value returned by `ListTasks` do.
* The elements of `s.tasks` are pointers to `pb.TaskResponse` records that no
  code in `main.go` writes after construction; a heap cell therefore holds the
  record itself.
* The mutex is not modelled: every call runs to completion before the next.
-/

namespace TaskService

/-! ## Machine integers -/

/-- Two's-complement reduction of an integer to the `int32` range. -/
def wrap32 (x : Int) : Int := (x + 2147483648) % 4294967296 - 2147483648

/-- Smallest value of Go's `int` on a 64-bit platform. -/
def intMin : Int := -9223372036854775808

/-- Largest value of Go's `int` on a 64-bit platform. -/
def intMax : Int := 9223372036854775807

/-! ## Records and requests -/

/-- The message `pb.TaskResponse`. -/
structure TaskResponse where
  Id : Int
  Title : String
  Description : String
deriving DecidableEq, Repr, Inhabited

/-- The message `pb.CreateTaskRequest`. -/
structure CreateTaskRequest where
  Title : String
  Description : String
deriving DecidableEq, Repr

/-- The message `pb.DeleteTaskRequest`. -/
structure DeleteTaskRequest where
  Id : Int
deriving DecidableEq, Repr

/-! ## Go slices over a heap of backing arrays -/

/-- A slice header: backing array `arr`, first cell `off`, length and capacity. -/
structure Slice where
  arr : Nat
  off : Nat
  len : Nat
  cap : Nat
deriving DecidableEq, Repr

/-- The fields of `type server struct` that the operations use. -/
structure server where
  tasks : Slice
  nextID : Int
deriving DecidableEq, Repr

/-- The process state: the heap cells `mem arr idx`, the next unused backing
array `brk`, and the single `server` value `taskService`. -/
structure World where
  mem : Nat → Nat → TaskResponse
  brk : Nat
  srv : server

/-- The elements a slice header denotes in a given heap, in order. -/
def readSlice (mem : Nat → Nat → TaskResponse) (sl : Slice) : List TaskResponse :=
  (List.range sl.len).map (fun i => mem sl.arr (sl.off + i))

/-- The slice expression `sl[:i]`. -/
def Slice.upTo (sl : Slice) (i : Nat) : Slice :=
  { sl with len := i }

/-- The slice expression `sl[i:]`. -/
def Slice.startingAt (sl : Slice) (i : Nat) : Slice :=
  { sl with off := sl.off + i, len := sl.len - i, cap := sl.cap - i }

/-- Store the elements `xs` into array `a` from cell `base` onwards. -/
def writeAt (mem : Nat → Nat → TaskResponse) (a base : Nat) (xs : List TaskResponse) :
    Nat → Nat → TaskResponse :=
  fun a' j =>
    if a' = a ∧ base ≤ j ∧ j < base + xs.length then xs.getD (j - base) default
    else mem a' j

/-- Go's built-in `append(dst, elems...)`. The elements are read before anything
is written (the runtime copies with `memmove`). When the result fits in the
capacity of `dst` it is written in place, behind the current length, and the
result shares the backing array of `dst`; otherwise a fresh array is allocated,
whose capacity `grow oldCap newLen` is chosen by the Go runtime. -/
def goAppend (grow : Nat → Nat → Nat) (mem : Nat → Nat → TaskResponse) (brk : Nat)
    (dst : Slice) (elems : List TaskResponse) :
    (Nat → Nat → TaskResponse) × Nat × Slice :=
  if dst.len + elems.length ≤ dst.cap then
    (writeAt mem dst.arr (dst.off + dst.len) elems, brk,
      { dst with len := dst.len + elems.length })
  else
    (writeAt mem brk 0 (readSlice mem dst ++ elems), brk + 1,
      { arr := brk, off := 0, len := dst.len + elems.length,
        cap := grow dst.cap (dst.len + elems.length) })

/-- The capacity rule of the Go runtime for small slices (doubling, or the
requested length when that is larger); used where a concrete run is evaluated. -/
def growslice (oldCap newLen : Nat) : Nat :=
  if 2 * oldCap < newLen then newLen else 2 * oldCap

/-! ## The store operations -/

/-- The value `&server{}`: a nil slice and a zero counter. Array `0` stands for
the nil pointer, so allocation starts at `1`. -/
def newServer : World :=
  { mem := fun _ _ => default, brk := 1,
    srv := { tasks := { arr := 0, off := 0, len := 0, cap := 0 }, nextID := 0 } }

/-- The records currently held in `s.tasks`. -/
def World.tasks (w : World) : List TaskResponse := readSlice w.mem w.srv.tasks

/-- The method `server.CreateTask`. -/
def CreateTask (grow : Nat → Nat → Nat) (w : World) (req : CreateTaskRequest) :
    World × TaskResponse :=
  let nextID := if w.srv.nextID = 0 then 1 else w.srv.nextID
  let task : TaskResponse :=
    { Id := nextID, Title := req.Title, Description := req.Description }
  let nextID' := wrap32 (nextID + 1)
  let r := goAppend grow w.mem w.brk w.srv.tasks [task]
  ({ mem := r.1, brk := r.2.1, srv := { tasks := r.2.2, nextID := nextID' } }, task)

/-- The method `server.ListTasks`: the response carries the slice header
`s.tasks` itself. -/
def ListTasks (w : World) : World × Slice :=
  (w, w.srv.tasks)

/-- The loop `for i, task := range s.tasks` of `DeleteTask`, up to its first
iteration whose test `task.Id == req.Id` succeeds: that index and record. -/
def findTask (id : Int) : List TaskResponse → Nat → Option (Nat × TaskResponse)
  | [], _ => none
  | task :: rest, i => if task.Id = id then some (i, task) else findTask id rest (i + 1)

/-- The method `server.DeleteTask`. -/
def DeleteTask (grow : Nat → Nat → Nat) (w : World) (req : DeleteTaskRequest) :
    World × Except String TaskResponse :=
  match findTask req.Id (readSlice w.mem w.srv.tasks) 0 with
  | some (i, task) =>
    let r := goAppend grow w.mem w.brk (w.srv.tasks.upTo i)
      (readSlice w.mem (w.srv.tasks.startingAt (i + 1)))
    ({ mem := r.1, brk := r.2.1, srv := { tasks := r.2.2, nextID := w.srv.nextID } },
      Except.ok task)
  | none => (w, Except.error "task not found")

/-! ## Sequences of calls -/

/-- One call on the service, with its request message. -/
inductive Call where
  | create (req : CreateTaskRequest)
  | list
  | delete (req : DeleteTaskRequest)
deriving DecidableEq, Repr

/-- The state after one call. -/
def step (grow : Nat → Nat → Nat) (w : World) : Call → World
  | Call.create req => (CreateTask grow w req).1
  | Call.list => (ListTasks w).1
  | Call.delete req => (DeleteTask grow w req).1

/-- The state after a sequence of calls, made one after the other. -/
def run (grow : Nat → Nat → Nat) : World → List Call → World
  | w, [] => w
  | w, c :: cs => run grow (step grow w c) cs

/-- The ids returned by the `CreateTask` calls of a sequence, in call order. -/
def createdIds (grow : Nat → Nat → Nat) : World → List Call → List Int
  | _, [] => []
  | w, Call.create req :: cs =>
    (CreateTask grow w req).2.Id :: createdIds grow (CreateTask grow w req).1 cs
  | w, c :: cs => createdIds grow (step grow w c) cs

/-- Number of `CreateTask` calls in a sequence. -/
def creates : List Call → Nat
  | [] => 0
  | Call.create _ :: cs => creates cs + 1
  | _ :: cs => creates cs

/-! ## The HTTP `DELETE /tasks/:id` handler -/

/-- Value of a run of decimal digits, most significant first, continuing from
`acc`; `none` when a character is not a digit. -/
def digitsValue : List Char → Nat → Option Nat
  | [], acc => some acc
  | c :: cs, acc =>
    if 48 ≤ c.toNat ∧ c.toNat ≤ 57 then digitsValue cs (acc * 10 + (c.toNat - 48))
    else none

/-- The integer written by a decimal numeral: an optional sign `+` or `-`
followed by at least one digit. `none` for any other string. -/
def decimalValue (s : String) : Option Int :=
  match s.data with
  | [] => none
  | c :: cs =>
    if c = '-' then
      (if cs = [] then none else (digitsValue cs 0).map (fun n => -(n : Int)))
    else if c = '+' then
      (if cs = [] then none else (digitsValue cs 0).map (fun n => (n : Int)))
    else (digitsValue (c :: cs) 0).map (fun n => (n : Int))

/-- Go's `strconv.Atoi` on a 64-bit platform, from its documentation: the value
of a decimal numeral that fits in `int`; an error (`none`) for a string that is
not a decimal numeral and for a value out of the range of `int`. The handler
does not look at which error it is. -/
def Atoi (s : String) : Option Int :=
  match decimalValue s with
  | none => none
  | some v => if intMin ≤ v ∧ v ≤ intMax then some v else none

/-- The payload given to `c.JSON`: `gin.H` with the one key `error`, or a task
record. -/
inductive Body where
  | error (msg : String)
  | task (t : TaskResponse)
deriving DecidableEq, Repr

/-- What `c.JSON(status, body)` sends. -/
structure Response where
  status : Nat
  body : Body
deriving DecidableEq, Repr

/-- The handler registered with `router.DELETE` for `/tasks/:id`; `idParam` is
`c.Param "id"`. -/
def deleteTaskHandler (grow : Nat → Nat → Nat) (w : World) (idParam : String) :
    World × Response :=
  match Atoi idParam with
  | none => (w, { status := 400, body := Body.error "Invalid task ID" })
  | some id =>
    match DeleteTask grow w { Id := wrap32 id } with
    | (w', Except.error err) => (w', { status := 500, body := Body.error err })
    | (w', Except.ok resp) => (w', { status := 200, body := Body.task resp })

/-! ## The protocol dispatcher -/

/-- The request headers, as far as the handler reads them: the accessor
`Header.Get`. -/
structure Header where
  Get : String → String

/-- The fields of `http.Request` that identify a request. -/
structure Request where
  Method : String
  Path : String
  ProtoMajor : Int
  Header : Header

/-- The two handlers a request can be passed on to. -/
inductive Target where
  | grpcServer
  | router
deriving DecidableEq, Repr

/-- The function wrapped by `h2c.NewHandler`: which `ServeHTTP` is called. -/
def dispatch (r : Request) : Target :=
  if r.ProtoMajor = 2 ∧ r.Header.Get "content-type" = "application/grpc" then
    Target.grpcServer
  else Target.router

/-! ## Predicates and sample states used by the theorems -/

/-- What holds of the store after `c` calls of `CreateTask` (and any number of
other calls) on a new server: the counter stands at `c + 1` reduced to `int32`
(or is still zero), every stored id is the reduction of some `j` in `1..c`, and
the stored ids are pairwise distinct. -/
def CounterInv (c : Nat) (w : World) : Prop :=
  (w.srv.nextID = wrap32 ((c : Int) + 1) ∨ (c = 0 ∧ w.srv.nextID = 0)) ∧
  (∀ t ∈ w.tasks, ∃ j : Nat, 1 ≤ j ∧ j ≤ c ∧ t.Id = wrap32 (j : Int)) ∧
  (w.tasks.map TaskResponse.Id).Nodup

/-- A store on which `CreateTask` was called twice. -/
def twoTasks : World :=
  run growslice newServer
    [Call.create { Title := "A", Description := "B" },
     Call.create { Title := "C", Description := "D" }]

/-- A request that declares the gRPC content type over HTTP/1.1. -/
def plainGrpcRequest : Request :=
  { Method := "POST", Path := "/TaskService/ListTasks", ProtoMajor := 1,
    Header := { Get := fun key => if key = "content-type" then "application/grpc" else "" } }

/-! ## Slices and `append` -/

theorem readSlice_length (mem : Nat → Nat → TaskResponse) (sl : Slice) :
    (readSlice mem sl).length = sl.len := by
  simp [readSlice]

theorem readSlice_getElem? (mem : Nat → Nat → TaskResponse) (sl : Slice) (n : Nat) :
    (readSlice mem sl)[n]? = if n < sl.len then some (mem sl.arr (sl.off + n)) else none := by
  unfold readSlice
  by_cases h : n < sl.len
  · simp [h, List.getElem?_range]
  · simp [h]
    omega

theorem writeAt_hit (mem : Nat → Nat → TaskResponse) (a base j : Nat) (xs : List TaskResponse)
    (h1 : base ≤ j) (h2 : j < base + xs.length) :
    some (writeAt mem a base xs a j) = xs[j - base]? := by
  have h3 : j - base < xs.length := by omega
  simp [writeAt, h1, h2, List.getD_eq_getElem?_getD, List.getElem?_eq_getElem h3]

theorem writeAt_miss (mem : Nat → Nat → TaskResponse) (a base j : Nat) (xs : List TaskResponse)
    (h : j < base) : writeAt mem a base xs a j = mem a j := by
  have : ¬ base ≤ j := by omega
  simp [writeAt, this]

/-- The slice returned by `append` holds the old elements followed by the new. -/
theorem readSlice_goAppend (grow : Nat → Nat → Nat) (mem : Nat → Nat → TaskResponse)
    (brk : Nat) (dst : Slice) (elems : List TaskResponse) :
    readSlice (goAppend grow mem brk dst elems).1 (goAppend grow mem brk dst elems).2.2
      = readSlice mem dst ++ elems := by
  apply List.ext_getElem?
  intro n
  unfold goAppend
  split
  · rw [readSlice_getElem?]
    by_cases hn : n < dst.len
    · have h1 : n < dst.len + elems.length := by omega
      rw [List.getElem?_append_left (by simpa [readSlice_length] using hn), readSlice_getElem?]
      simp only [h1, hn, if_true]
      rw [writeAt_miss _ _ _ _ _ (by omega)]
    · rw [List.getElem?_append_right (by simpa [readSlice_length] using hn), readSlice_length]
      by_cases h2 : n < dst.len + elems.length
      · simp only [h2, if_true]
        rw [writeAt_hit _ _ _ _ _ (by omega) (by omega)]
        congr 1
        omega
      · simp only [h2, if_false]
        rw [List.getElem?_eq_none (by omega)]
  · rw [readSlice_getElem?]
    by_cases h2 : n < dst.len + elems.length
    · simp only [h2, if_true]
      have := writeAt_hit mem brk 0 (0 + n) (readSlice mem dst ++ elems) (by omega)
        (by simp [readSlice_length]; omega)
      simpa using this
    · simp only [h2, if_false]
      rw [List.getElem?_eq_none (by simp [readSlice_length]; omega)]

theorem readSlice_upTo (mem : Nat → Nat → TaskResponse) (sl : Slice) (i : Nat)
    (h : i ≤ sl.len) : readSlice mem (sl.upTo i) = (readSlice mem sl).take i := by
  apply List.ext_getElem?
  intro n
  rw [readSlice_getElem?, List.getElem?_take, readSlice_getElem?]
  simp only [Slice.upTo]
  by_cases hn : n < i
  · have : n < sl.len := by omega
    simp [hn, this]
  · simp [hn]

theorem readSlice_startingAt (mem : Nat → Nat → TaskResponse) (sl : Slice) (i : Nat) :
    readSlice mem (sl.startingAt i) = (readSlice mem sl).drop i := by
  apply List.ext_getElem?
  intro n
  rw [readSlice_getElem?, List.getElem?_drop, readSlice_getElem?]
  simp only [Slice.startingAt]
  by_cases hn : n < sl.len - i
  · have : i + n < sl.len := by omega
    simp [hn, this, Nat.add_assoc]
  · have : ¬ i + n < sl.len := by omega
    simp [hn, this]

/-! ## The search loop of `DeleteTask` -/

theorem findTask_none (id : Int) (l : List TaskResponse) (k : Nat) :
    findTask id l k = none ↔ ∀ t ∈ l, t.Id ≠ id := by
  induction l generalizing k with
  | nil => simp [findTask]
  | cons t rest ih =>
    unfold findTask
    by_cases h : t.Id = id
    · simp [h]
    · simp [h, ih]

theorem findTask_some (id : Int) (l : List TaskResponse) (k i : Nat) (t : TaskResponse)
    (h : findTask id l k = some (i, t)) :
    k ≤ i ∧ l[i - k]? = some t ∧ t.Id = id ∧
      ∀ j, j < i - k → ∀ u, l[j]? = some u → u.Id ≠ id := by
  induction l generalizing k with
  | nil => simp [findTask] at h
  | cons x rest ih =>
    unfold findTask at h
    by_cases hx : x.Id = id
    · simp only [hx, if_true, Option.some.injEq, Prod.mk.injEq] at h
      obtain ⟨rfl, rfl⟩ := h
      refine ⟨le_refl _, by simp, hx, ?_⟩
      intro j hj
      omega
    · simp only [hx, if_false] at h
      obtain ⟨h1, h2, h3, h4⟩ := ih (k + 1) h
      have e : i - k = (i - (k + 1)) + 1 := by omega
      refine ⟨by omega, ?_, h3, ?_⟩
      · rw [e, List.getElem?_cons_succ]
        exact h2
      · intro j hj u hu
        cases j with
        | zero =>
          simp only [List.getElem?_cons_zero, Option.some.injEq] at hu
          subst hu
          exact hx
        | succ j =>
          rw [List.getElem?_cons_succ] at hu
          exact h4 j (by omega) u hu

theorem findTask_isSome (id : Int) (l : List TaskResponse) (k : Nat)
    (h : ∃ t ∈ l, t.Id = id) : ∃ i t, findTask id l k = some (i, t) := by
  cases hf : findTask id l k with
  | none =>
    obtain ⟨t, ht, hid⟩ := h
    exact absurd hid ((findTask_none id l k).1 hf t ht)
  | some p => exact ⟨p.1, p.2, rfl⟩

/-! ## The store operations on the contents of `s.tasks` -/

theorem CreateTask_tasks (grow : Nat → Nat → Nat) (w : World) (req : CreateTaskRequest) :
    (CreateTask grow w req).1.tasks = w.tasks ++ [(CreateTask grow w req).2] := by
  simp only [CreateTask, World.tasks]
  exact readSlice_goAppend grow w.mem w.brk w.srv.tasks _

theorem CreateTask_nextID (grow : Nat → Nat → Nat) (w : World) (req : CreateTaskRequest) :
    (CreateTask grow w req).1.srv.nextID = wrap32 ((CreateTask grow w req).2.Id + 1) := by
  simp [CreateTask]

theorem CreateTask_Id (grow : Nat → Nat → Nat) (w : World) (req : CreateTaskRequest) :
    (CreateTask grow w req).2.Id = if w.srv.nextID = 0 then 1 else w.srv.nextID := by
  simp [CreateTask]

theorem DeleteTask_of_findTask (grow : Nat → Nat → Nat) (w : World) (req : DeleteTaskRequest)
    (i : Nat) (t : TaskResponse) (h : findTask req.Id w.tasks 0 = some (i, t)) :
    (DeleteTask grow w req).2 = Except.ok t ∧
      (DeleteTask grow w req).1.tasks = w.tasks.eraseIdx i ∧
      (DeleteTask grow w req).1.srv.nextID = w.srv.nextID := by
  have hf := findTask_some req.Id w.tasks 0 i t h
  have hi : i < w.srv.tasks.len := by
    have h2 := hf.2.1
    rw [Nat.sub_zero] at h2
    have h3 : i < w.tasks.length := by
      by_contra hc
      rw [List.getElem?_eq_none (by omega)] at h2
      exact absurd h2 (by simp)
    simpa [World.tasks, readSlice_length] using h3
  unfold World.tasks at h
  simp only [DeleteTask, h, World.tasks]
  refine ⟨trivial, ?_, trivial⟩
  rw [readSlice_goAppend, readSlice_upTo _ _ _ (le_of_lt hi), readSlice_startingAt,
    List.eraseIdx_eq_take_drop_succ]

theorem DeleteTask_of_absent (grow : Nat → Nat → Nat) (w : World) (req : DeleteTaskRequest)
    (h : ∀ t ∈ w.tasks, t.Id ≠ req.Id) :
    DeleteTask grow w req = (w, Except.error "task not found") := by
  have hf := (findTask_none req.Id w.tasks 0).2 h
  unfold World.tasks at hf
  simp only [DeleteTask, hf]

/-- Whatever `DeleteTask` does, the records left are a sublist of those before. -/
theorem DeleteTask_sublist (grow : Nat → Nat → Nat) (w : World) (req : DeleteTaskRequest) :
    List.Sublist (DeleteTask grow w req).1.tasks w.tasks ∧
      (DeleteTask grow w req).1.srv.nextID = w.srv.nextID := by
  cases hf : findTask req.Id w.tasks 0 with
  | none =>
    have h := DeleteTask_of_absent grow w req ((findTask_none req.Id w.tasks 0).1 hf)
    rw [h]
    exact ⟨List.Sublist.refl _, rfl⟩
  | some p =>
    obtain ⟨-, h2, h3⟩ := DeleteTask_of_findTask grow w req p.1 p.2 hf
    rw [h2]
    exact ⟨List.eraseIdx_sublist _ _, h3⟩

/-! ## The `int32` counter -/

theorem wrap32_ne_zero (n : Nat) (h1 : 1 ≤ n) (h2 : n ≤ 4294967295) :
    wrap32 (n : Int) ≠ 0 := by
  unfold wrap32
  omega

theorem wrap32_inj (a b : Nat) (ha : a ≤ 4294967295) (hb : b ≤ 4294967295)
    (h : wrap32 (a : Int) = wrap32 (b : Int)) : a = b := by
  unfold wrap32 at h
  omega

theorem wrap32_succ (n : Nat) : wrap32 (wrap32 (n : Int) + 1) = wrap32 ((n : Int) + 1) := by
  unfold wrap32
  omega

theorem wrap32_small (n : Nat) (h : n ≤ 2147483647) : wrap32 (n : Int) = (n : Int) := by
  unfold wrap32
  omega

theorem CounterInv_newServer : CounterInv 0 newServer := by
  refine ⟨Or.inr ⟨rfl, rfl⟩, ?_, ?_⟩
  · intro t ht
    simp [World.tasks, newServer, readSlice] at ht
  · simp [World.tasks, newServer, readSlice]

/-- The id handed out by the call after `c` earlier ones. -/
theorem CreateTask_Id_of_inv (grow : Nat → Nat → Nat) (c : Nat) (w : World)
    (req : CreateTaskRequest) (hw : CounterInv c w) (hc : c + 1 ≤ 4294967295) :
    (CreateTask grow w req).2.Id = wrap32 ((c : Int) + 1) := by
  rw [CreateTask_Id]
  rcases hw.1 with h | ⟨h0, h⟩
  · have hne : wrap32 ((c : Int) + 1) ≠ 0 := by
      have := wrap32_ne_zero (c + 1) (by omega) hc
      simpa using this
    rw [h, if_neg hne]
  · subst h0
    rw [h, if_pos rfl]
    unfold wrap32
    norm_num

theorem CounterInv_CreateTask (grow : Nat → Nat → Nat) (c : Nat) (w : World)
    (req : CreateTaskRequest) (hw : CounterInv c w) (hc : c + 1 ≤ 4294967295) :
    CounterInv (c + 1) (CreateTask grow w req).1 := by
  have hid := CreateTask_Id_of_inv grow c w req hw hc
  refine ⟨Or.inl ?_, ?_, ?_⟩
  · rw [CreateTask_nextID, hid]
    have := wrap32_succ (c + 1)
    push_cast at this ⊢
    exact this
  · intro t ht
    rw [CreateTask_tasks, List.mem_append, List.mem_singleton] at ht
    rcases ht with ht | rfl
    · obtain ⟨j, h1, h2, h3⟩ := hw.2.1 t ht
      exact ⟨j, h1, by omega, h3⟩
    · exact ⟨c + 1, by omega, le_refl _, by rw [hid]; push_cast; rfl⟩
  · rw [CreateTask_tasks, List.map_append, List.map_singleton]
    refine List.Nodup.append hw.2.2 (List.nodup_singleton _) ?_
    intro x hx hx2
    rw [List.mem_singleton] at hx2
    rw [List.mem_map] at hx
    obtain ⟨t, ht, rfl⟩ := hx
    obtain ⟨j, h1, h2, h3⟩ := hw.2.1 t ht
    rw [h3, hid] at hx2
    have := wrap32_inj j (c + 1) (by omega) hc (by push_cast; exact hx2)
    omega

theorem CounterInv_DeleteTask (grow : Nat → Nat → Nat) (c : Nat) (w : World)
    (req : DeleteTaskRequest) (hw : CounterInv c w) :
    CounterInv c (DeleteTask grow w req).1 := by
  obtain ⟨hs, hn⟩ := DeleteTask_sublist grow w req
  refine ⟨by rw [hn]; exact hw.1, ?_, ?_⟩
  · intro t ht
    exact hw.2.1 t (hs.subset ht)
  · exact List.Nodup.sublist (hs.map _) hw.2.2

theorem map_range_succ (f : Nat → Int) (k : Nat) :
    (List.range (k + 1)).map f = f 0 :: (List.range k).map (fun i => f (i + 1)) := by
  rw [List.range_succ_eq_map, List.map_cons, List.map_map]
  rfl

/-- The counter invariant along any sequence of calls, and the ids it returns. -/
theorem run_CounterInv (grow : Nat → Nat → Nat) (calls : List Call) :
    ∀ (c : Nat) (w : World), CounterInv c w → c + creates calls ≤ 4294967295 →
      CounterInv (c + creates calls) (run grow w calls) ∧
      createdIds grow w calls =
        (List.range (creates calls)).map (fun i : Nat => wrap32 ((c : Int) + 1 + (i : Int))) := by
  induction calls with
  | nil =>
    intro c w hw _
    simp [creates, run, createdIds, hw]
  | cons call rest ih =>
    intro c w hw hc
    cases call with
    | create req =>
      simp only [creates] at hc ⊢
      have h1 := CounterInv_CreateTask grow c w req hw (by omega)
      have h2 := CreateTask_Id_of_inv grow c w req hw (by omega)
      obtain ⟨i1, i2⟩ := ih (c + 1) _ h1 (by omega)
      refine ⟨?_, ?_⟩
      · have e : c + (creates rest + 1) = c + 1 + creates rest := by omega
        rw [e]
        exact i1
      · simp only [createdIds, step, run] at i2 ⊢
        rw [i2, h2, map_range_succ, Nat.cast_zero, add_zero]
        refine congrArg (List.cons _) (List.map_congr_left ?_)
        intro i _
        push_cast
        ring_nf
    | list =>
      simp only [creates, run, createdIds, step, ListTasks] at hc ⊢
      exact ih c w hw hc
    | delete req =>
      simp only [creates, run, createdIds, step] at hc ⊢
      exact ih c _ (CounterInv_DeleteTask grow c w req hw) hc

theorem creates_map_create (reqs : List CreateTaskRequest) :
    creates (reqs.map Call.create) = reqs.length := by
  induction reqs with
  | nil => rfl
  | cons r rest ih => simp [creates, ih]

theorem run_append (grow : Nat → Nat → Nat) (a b : List Call) :
    ∀ w : World, run grow w (a ++ b) = run grow (run grow w a) b := by
  induction a with
  | nil => intro w; rfl
  | cons c rest ih => intro w; simp only [List.cons_append, run]; exact ih _

theorem createdIds_append (grow : Nat → Nat → Nat) (a b : List Call) :
    ∀ w : World, createdIds grow w (a ++ b)
      = createdIds grow w a ++ createdIds grow (run grow w a) b := by
  induction a with
  | nil => intro w; rfl
  | cons c rest ih =>
    intro w
    cases c with
    | create req => simp only [List.cons_append, createdIds, run, step, List.append_eq, ih]
    | list => simp only [List.cons_append, createdIds, run, step, List.append_eq, ih]
    | delete req => simp only [List.cons_append, createdIds, run, step, List.append_eq, ih]

/-- With `CreateTask` calls only, the stored ids are the old ones followed by the
ids handed out. -/
theorem run_creates_tasks (grow : Nat → Nat → Nat) (reqs : List CreateTaskRequest) :
    ∀ w : World, (run grow w (reqs.map Call.create)).tasks.map TaskResponse.Id
      = w.tasks.map TaskResponse.Id ++ createdIds grow w (reqs.map Call.create) := by
  induction reqs with
  | nil => intro w; simp [run, createdIds]
  | cons r rest ih =>
    intro w
    simp only [List.map_cons, run, step, createdIds]
    rw [ih, CreateTask_tasks]
    simp

/-- The ids handed out by `n + 1` calls of `CreateTask` on a new server, for
`n + 1 = 2^32`: the first and the last are both `1`. -/
theorem createdIds_wrap (grow : Nat → Nat → Nat) (r : CreateTaskRequest) :
    ∃ mid : List Int,
      createdIds grow newServer ((List.replicate 4294967296 r).map Call.create)
        = 1 :: (mid ++ [1]) := by
  have hsplit : (List.replicate 4294967296 r).map Call.create
      = (List.replicate 4294967295 r).map Call.create ++ [Call.create r] := by
    have : (4294967296 : Nat) = 4294967295 + 1 := rfl
    rw [this, List.replicate_succ', List.map_append]
    rfl
  have hcr : creates ((List.replicate 4294967295 r).map Call.create) = 4294967295 := by
    rw [creates_map_create, List.length_replicate]
  obtain ⟨hinv, hids⟩ := run_CounterInv grow ((List.replicate 4294967295 r).map Call.create)
    0 newServer CounterInv_newServer (by rw [hcr])
  rw [hcr] at hinv hids
  have hlast : createdIds grow (run grow newServer ((List.replicate 4294967295 r).map Call.create))
      [Call.create r] = [1] := by
    simp only [createdIds, CreateTask_Id]
    rcases hinv.1 with h | ⟨h, -⟩
    · rw [h]
      have : wrap32 (((0 + 4294967295 : Nat) : Int) + 1) = 0 := by
        unfold wrap32
        norm_num
      rw [this]
      simp
    · omega
  have h01 : wrap32 (((0 : Nat) : Int) + 1 + ((0 : Nat) : Int)) = 1 := by
    unfold wrap32
    norm_num
  have hfirst : (List.range 4294967295).map
        (fun i : Nat => wrap32 (((0 : Nat) : Int) + 1 + (i : Int)))
      = 1 :: (List.range 4294967294).map
          (fun i : Nat => wrap32 (((0 : Nat) : Int) + 1 + ((i + 1 : Nat) : Int))) := by
    have : (4294967295 : Nat) = 4294967294 + 1 := rfl
    rw [this, map_range_succ, h01]
  refine ⟨(List.range 4294967294).map
    (fun i : Nat => wrap32 (((0 : Nat) : Int) + 1 + ((i + 1 : Nat) : Int))), ?_⟩
  rw [hsplit, createdIds_append, hlast, hids, hfirst, List.cons_append]

/-! ## The claims -/

/-- C1. The dispatcher decides from `ProtoMajor` and the `content-type` header
alone: a request goes to the gRPC server exactly when `ProtoMajor` is 2 and the
header equals `application/grpc`, and to the HTTP router in every other case; in
particular with the gRPC content type and another `ProtoMajor` it goes to the
router. -/
theorem dispatch_classification :
    (∃ f : Int → String → Target,
        ∀ r : Request, dispatch r = f r.ProtoMajor (r.Header.Get "content-type")) ∧
    ∀ r : Request,
      (dispatch r = Target.grpcServer ↔
        r.ProtoMajor = 2 ∧ r.Header.Get "content-type" = "application/grpc") ∧
      (dispatch r = Target.router ↔
        ¬ (r.ProtoMajor = 2 ∧ r.Header.Get "content-type" = "application/grpc")) ∧
      (r.Header.Get "content-type" = "application/grpc" ∧ r.ProtoMajor ≠ 2 →
        dispatch r = Target.router ∧ dispatch r ≠ Target.grpcServer) := by
  refine ⟨⟨fun pm ct => if pm = 2 ∧ ct = "application/grpc" then Target.grpcServer
      else Target.router, fun r => rfl⟩, ?_⟩
  intro r
  unfold dispatch
  by_cases h : r.ProtoMajor = 2 ∧ r.Header.Get "content-type" = "application/grpc"
  · rw [if_pos h]
    refine ⟨by simp [h], by simp [h], ?_⟩
    intro h2
    exact absurd h.1 h2.2
  · rw [if_neg h]
    refine ⟨by simp [h], by simp [h], ?_⟩
    intro _
    exact ⟨rfl, by simp⟩

/-- Witness for C1: a request with the gRPC content type over HTTP/1.1. -/
theorem dispatch_classification_witness :
    dispatch plainGrpcRequest = Target.router ∧
      dispatch plainGrpcRequest ≠ Target.grpcServer :=
  (dispatch_classification.2 plainGrpcRequest).2.2 ⟨by decide, by decide⟩

/-- C2 (amended). On a new server, a sequence of at most `2^31 - 1` calls of
`CreateTask` returns the ids `1, 2, 3, ...` in order: the first call returns 1
and each later call the previous id plus 1. -/
theorem createdIds_consecutive (grow : Nat → Nat → Nat) (reqs : List CreateTaskRequest)
    (h : reqs.length ≤ 2147483647) :
    createdIds grow newServer (reqs.map Call.create)
      = (List.range reqs.length).map (fun k : Nat => (k : Int) + 1) := by
  have hc := creates_map_create reqs
  obtain ⟨-, hids⟩ := run_CounterInv grow (reqs.map Call.create) 0 newServer
    CounterInv_newServer (by rw [hc]; omega)
  rw [hids, hc]
  apply List.map_congr_left
  intro i hi
  rw [List.mem_range] at hi
  have := wrap32_small (i + 1) (by omega)
  push_cast at this ⊢
  rw [← this]
  ring_nf

/-- Witness for C2 (amended): two calls return the ids 1 and 2. -/
theorem createdIds_consecutive_witness :
    createdIds growslice newServer
        ([{ Title := "A", Description := "B" }, { Title := "C", Description := "D" }].map
          Call.create)
      = [1, 2] :=
  createdIds_consecutive growslice
    [{ Title := "A", Description := "B" }, { Title := "C", Description := "D" }] (by decide)

/-- C2 as stated fails: among `2^31` calls of `CreateTask` on a new server, call
number `2^31 - 1` returns `2^31 - 1` and the next call returns `-2^31`. -/
theorem createdIds_overflow :
    (createdIds growslice newServer
        ((List.replicate 2147483648 { Title := "", Description := "" }).map
          Call.create))[2147483646]? = some 2147483647 ∧
    (createdIds growslice newServer
        ((List.replicate 2147483648 { Title := "", Description := "" }).map
          Call.create))[2147483647]? = some (-2147483648) := by
  have hc : creates ((List.replicate 2147483648
      ({ Title := "", Description := "" } : CreateTaskRequest)).map Call.create)
      = 2147483648 := by
    rw [creates_map_create, List.length_replicate]
  obtain ⟨-, hids⟩ := run_CounterInv growslice ((List.replicate 2147483648
      ({ Title := "", Description := "" } : CreateTaskRequest)).map Call.create) 0 newServer
    CounterInv_newServer (by rw [hc]; norm_num)
  rw [hids, hc]
  constructor
  · rw [List.getElem?_map, List.getElem?_range (by norm_num)]
    simp only [Option.map_some']
    congr 1
  · rw [List.getElem?_map, List.getElem?_range (by norm_num)]
    simp only [Option.map_some']
    congr 1

/-- C3 (amended). In every state reached from a new server by a sequence of
`CreateTask`, `ListTasks` and `DeleteTask` calls of which at most `2^32 - 1` are
`CreateTask` calls, the ids of the records held in `s.tasks` are pairwise
distinct. -/
theorem tasks_ids_nodup (grow : Nat → Nat → Nat) (calls : List Call)
    (h : creates calls ≤ 4294967295) :
    ((run grow newServer calls).tasks.map TaskResponse.Id).Nodup := by
  obtain ⟨hinv, -⟩ := run_CounterInv grow calls 0 newServer CounterInv_newServer (by omega)
  exact hinv.2.2

/-- Witness for C3 (amended): create twice, list, delete the first, create again. -/
theorem tasks_ids_nodup_witness :
    ((run growslice newServer
        [Call.create { Title := "A", Description := "B" },
         Call.create { Title := "C", Description := "D" },
         Call.list,
         Call.delete { Id := 1 },
         Call.create { Title := "E", Description := "F" }]).tasks.map TaskResponse.Id).Nodup :=
  tasks_ids_nodup growslice _ (by decide)

/-- C3 as stated fails: after `2^32` calls of `CreateTask` on a new server the
list `s.tasks` holds two records with the same id (the first and the last both
carry id 1). -/
theorem tasks_ids_repeat :
    ¬ ((run growslice newServer
        ((List.replicate 4294967296 { Title := "", Description := "" }).map
          Call.create)).tasks.map TaskResponse.Id).Nodup := by
  obtain ⟨mid, hmid⟩ := createdIds_wrap growslice { Title := "", Description := "" }
  have hnil : newServer.tasks.map TaskResponse.Id = [] := rfl
  rw [run_creates_tasks, hnil, List.nil_append, hmid]
  intro hnd
  rw [List.nodup_cons] at hnd
  exact hnd.1 (List.mem_append_right _ (List.mem_singleton_self _))

/-- C4 (amended). Along any sequence of calls on a new server of which at most
`2^32 - 1` are `CreateTask` calls, the id returned by a `CreateTask` call differs
from the id returned by every earlier `CreateTask` call, whatever was deleted in
between. -/
theorem createdIds_nodup (grow : Nat → Nat → Nat) (calls : List Call)
    (h : creates calls ≤ 4294967295) :
    (createdIds grow newServer calls).Nodup := by
  obtain ⟨-, hids⟩ := run_CounterInv grow calls 0 newServer CounterInv_newServer (by omega)
  rw [hids]
  refine List.Nodup.map_on ?_ (List.nodup_range _)
  intro a ha b hb hab
  rw [List.mem_range] at ha hb
  have := wrap32_inj (a + 1) (b + 1) (by omega) (by omega) (by
    push_cast at hab ⊢
    have e1 : (a : Int) + 1 = 0 + 1 + (a : Int) := by ring
    have e2 : (b : Int) + 1 = 0 + 1 + (b : Int) := by ring
    rw [e1, e2]
    exact hab)
  omega

/-- Witness for C4 (amended): the id of a deleted record is not handed out again. -/
theorem createdIds_nodup_witness :
    (createdIds growslice newServer
        [Call.create { Title := "A", Description := "B" },
         Call.delete { Id := 1 },
         Call.create { Title := "C", Description := "D" }]).Nodup :=
  createdIds_nodup growslice _ (by decide)

/-- C4 as stated fails: among `2^32` calls of `CreateTask` on a new server, the
last call returns id 1, which the first call had returned. -/
theorem createdIds_repeat :
    ¬ (createdIds growslice newServer
        ((List.replicate 4294967296 { Title := "", Description := "" }).map
          Call.create)).Nodup := by
  obtain ⟨mid, hmid⟩ := createdIds_wrap growslice { Title := "", Description := "" }
  rw [hmid]
  intro hnd
  rw [List.nodup_cons] at hnd
  exact hnd.1 (List.mem_append_right _ (List.mem_singleton_self _))

/-- C5. In every state, after `CreateTask` with title `T` and description `D`
returns the record `r`, `ListTasks` returns the sequence it returned before the
call followed by `r`, and `r` carries the title `T` and the description `D`. -/
theorem CreateTask_appends (grow : Nat → Nat → Nat) (w : World) (req : CreateTaskRequest) :
    readSlice (ListTasks (CreateTask grow w req).1).1.mem (ListTasks (CreateTask grow w req).1).2
        = readSlice (ListTasks w).1.mem (ListTasks w).2 ++ [(CreateTask grow w req).2] ∧
      (CreateTask grow w req).2.Title = req.Title ∧
      (CreateTask grow w req).2.Description = req.Description := by
  refine ⟨?_, rfl, rfl⟩
  exact CreateTask_tasks grow w req

/-- C6. In every state, for an id that some record of `s.tasks` carries,
`DeleteTask` succeeds and returns the first record with that id, and `ListTasks`
then returns the earlier sequence with that one position removed: one record
fewer, the others unchanged and in the same order. -/
theorem DeleteTask_present (grow : Nat → Nat → Nat) (w : World) (req : DeleteTaskRequest)
    (h : ∃ t ∈ w.tasks, t.Id = req.Id) :
    ∃ (i : Nat) (t : TaskResponse),
      w.tasks[i]? = some t ∧ t.Id = req.Id ∧
      (∀ j, j < i → ∀ u, w.tasks[j]? = some u → u.Id ≠ req.Id) ∧
      (DeleteTask grow w req).2 = Except.ok t ∧
      readSlice (ListTasks (DeleteTask grow w req).1).1.mem
          (ListTasks (DeleteTask grow w req).1).2 = w.tasks.eraseIdx i ∧
      (readSlice (ListTasks (DeleteTask grow w req).1).1.mem
          (ListTasks (DeleteTask grow w req).1).2).length + 1 = w.tasks.length := by
  obtain ⟨i, t, hf⟩ := findTask_isSome req.Id w.tasks 0 h
  obtain ⟨-, h2, h3, h4⟩ := findTask_some req.Id w.tasks 0 i t hf
  obtain ⟨d1, d2, -⟩ := DeleteTask_of_findTask grow w req i t hf
  rw [Nat.sub_zero] at h2 h4
  have hi : i < w.tasks.length := by
    by_contra hc
    rw [List.getElem?_eq_none (by omega)] at h2
    exact absurd h2 (by simp)
  have d2' : readSlice (ListTasks (DeleteTask grow w req).1).1.mem
      (ListTasks (DeleteTask grow w req).1).2 = w.tasks.eraseIdx i := d2
  refine ⟨i, t, h2, h3, h4, d1, d2', ?_⟩
  rw [d2', List.length_eraseIdx, if_pos hi]
  omega

/-- Witness for C6: deleting id 1 from a store holding the ids 1 and 2. -/
theorem DeleteTask_present_witness :
    ∃ (i : Nat) (t : TaskResponse),
      twoTasks.tasks[i]? = some t ∧ t.Id = 1 ∧
      (∀ j, j < i → ∀ u, twoTasks.tasks[j]? = some u → u.Id ≠ 1) ∧
      (DeleteTask growslice twoTasks { Id := 1 }).2 = Except.ok t ∧
      readSlice (ListTasks (DeleteTask growslice twoTasks { Id := 1 }).1).1.mem
          (ListTasks (DeleteTask growslice twoTasks { Id := 1 }).1).2
        = twoTasks.tasks.eraseIdx i ∧
      (readSlice (ListTasks (DeleteTask growslice twoTasks { Id := 1 }).1).1.mem
          (ListTasks (DeleteTask growslice twoTasks { Id := 1 }).1).2).length + 1
        = twoTasks.tasks.length :=
  DeleteTask_present growslice twoTasks { Id := 1 }
    ⟨{ Id := 1, Title := "A", Description := "B" }, by decide, rfl⟩

/-- C7. In every state, for an id that no record of `s.tasks` carries,
`DeleteTask` returns no record and the error `task not found`, and the store is
as before: the same state, so the same records in `s.tasks` and the same
`nextID`. -/
theorem DeleteTask_absent (grow : Nat → Nat → Nat) (w : World) (req : DeleteTaskRequest)
    (h : ∀ t ∈ w.tasks, t.Id ≠ req.Id) :
    (DeleteTask grow w req).2 = Except.error "task not found" ∧
      (DeleteTask grow w req).1 = w ∧
      (DeleteTask grow w req).1.tasks = w.tasks ∧
      (DeleteTask grow w req).1.tasks.length = w.tasks.length ∧
      (DeleteTask grow w req).1.srv.nextID = w.srv.nextID := by
  rw [DeleteTask_of_absent grow w req h]
  exact ⟨rfl, rfl, rfl, rfl, rfl⟩

/-- Witness for C7: deleting id 999 from a store holding the ids 1 and 2. -/
theorem DeleteTask_absent_witness :
    (DeleteTask growslice twoTasks { Id := 999 }).2 = Except.error "task not found" ∧
      (DeleteTask growslice twoTasks { Id := 999 }).1 = twoTasks ∧
      (DeleteTask growslice twoTasks { Id := 999 }).1.tasks = twoTasks.tasks ∧
      (DeleteTask growslice twoTasks { Id := 999 }).1.tasks.length = twoTasks.tasks.length ∧
      (DeleteTask growslice twoTasks { Id := 999 }).1.srv.nextID = twoTasks.srv.nextID :=
  DeleteTask_absent growslice twoTasks { Id := 999 } (by decide)

/-- C8, evaluated at the failing input. On a store holding the ids 1 and 2,
`ListTasks` returns a slice that reads `[1, 2]`; after `DeleteTask` of id 1 the
same slice reads `[2, 2]`: the returned slice shares the backing array of
`s.tasks`, which `DeleteTask` overwrites in place. -/
theorem ListTasks_result_overwritten :
    readSlice (ListTasks twoTasks).1.mem (ListTasks twoTasks).2
        = [{ Id := 1, Title := "A", Description := "B" },
           { Id := 2, Title := "C", Description := "D" }] ∧
      readSlice (DeleteTask growslice (ListTasks twoTasks).1 { Id := 1 }).1.mem
          (ListTasks twoTasks).2
        = [{ Id := 2, Title := "C", Description := "D" },
           { Id := 2, Title := "C", Description := "D" }] := by
  decide

/-- C9 (amended). For the handler of `DELETE /tasks/:id`, in every state: when
the path segment is not a decimal numeral, or its value is out of the range of
`int`, the response is 400 with an error payload and the store is unchanged;
when it is a decimal numeral with a value in the `int32` range and no record
carries that id, the response is 500 with the error `task not found` and the
store is unchanged. -/
theorem deleteTaskHandler_errors (grow : Nat → Nat → Nat) (w : World) (idParam : String) :
    ((∀ v, decimalValue idParam = some v → v < intMin ∨ intMax < v) →
      deleteTaskHandler grow w idParam
        = (w, { status := 400, body := Body.error "Invalid task ID" })) ∧
    (∀ n, decimalValue idParam = some n → -2147483648 ≤ n → n ≤ 2147483647 →
      (∀ t ∈ w.tasks, t.Id ≠ n) →
      deleteTaskHandler grow w idParam
        = (w, { status := 500, body := Body.error "task not found" })) := by
  constructor
  · intro h
    have ha : Atoi idParam = none := by
      unfold Atoi
      cases hd : decimalValue idParam with
      | none => rfl
      | some v =>
        have := h v hd
        have hn : ¬ (intMin ≤ v ∧ v ≤ intMax) := by omega
        simp only [hn, if_false]
    simp only [deleteTaskHandler, ha]
  · intro n hd h1 h2 habs
    have ha : Atoi idParam = some n := by
      unfold Atoi
      have hr : intMin ≤ n ∧ n ≤ intMax := by
        unfold intMin intMax
        omega
      simp only [hd, hr, and_self, if_true]
    have hw : wrap32 n = n := by
      unfold wrap32
      omega
    simp only [deleteTaskHandler, ha, hw]
    rw [DeleteTask_of_absent grow w { Id := n } habs]

/-- Witness for C9 (amended): the segments `abc` and `999` on a store holding the
ids 1 and 2. -/
theorem deleteTaskHandler_errors_witness :
    deleteTaskHandler growslice twoTasks "abc"
        = (twoTasks, { status := 400, body := Body.error "Invalid task ID" }) ∧
      deleteTaskHandler growslice twoTasks "999"
        = (twoTasks, { status := 500, body := Body.error "task not found" }) :=
  ⟨(deleteTaskHandler_errors growslice twoTasks "abc").1
      (fun v hv => absurd ((show decimalValue "abc" = none by decide) ▸ hv) (by simp)),
    (deleteTaskHandler_errors growslice twoTasks "999").2 999
      (by decide) (by decide) (by decide) (by decide)⟩

/-- C9 as stated fails: `9223372036854775808` is an integer and no record of the
store carries it as id, yet the response is 400, not 500. -/
theorem deleteTaskHandler_range_error :
    decimalValue "9223372036854775808" = some 9223372036854775808 ∧
      (∀ t ∈ twoTasks.tasks, t.Id ≠ 9223372036854775808) ∧
      (deleteTaskHandler growslice twoTasks "9223372036854775808").2
        = { status := 400, body := Body.error "Invalid task ID" } := by
  decide

/-- C10, evaluated at the failing input. On a store holding the ids 1 and 2, the
path segment `4294967297` is parsed to the integer 4294967297, and the handler
answers 200 with the record of id 1, which it has removed from the store. -/
theorem deleteTaskHandler_truncates :
    Atoi "4294967297" = some 4294967297 ∧
      (deleteTaskHandler growslice twoTasks "4294967297").2
        = { status := 200, body := Body.task { Id := 1, Title := "A", Description := "B" } } ∧
      (deleteTaskHandler growslice twoTasks "4294967297").1.tasks
        = [{ Id := 2, Title := "C", Description := "D" }] := by
  decide

end TaskService
